import Mathlib

/-!
Verification of the Omvi_Core_Db_Scraper crawl/extract/document pipeline
(src/scraper.py) against its design specification.

The Python source is shallowly embedded: pure helper functions become Lean
functions on explicit data, the spider/scheduler loop becomes a fueled
transition function over an abstract page graph, and the HTTP endpoint
becomes a function from the crawl outcome to a result-plus-filesystem
record.  Text is modelled as List Char (Python str), URLs as a record of
the urlsplit components with the query already parsed into key-value pairs
(the parse_qsl / urlencode round trip used by the source).
-/

set_option maxRecDepth 40000

namespace Scraper

/-- ASCII lowercase of one character, as Python str.lower acts on ASCII. -/
def lowerChar (c : Char) : Char := c.toLower

/-- Lowercase a character list (Python str.lower restricted to ASCII input). -/
def lowerL (s : List Char) : List Char := s.map lowerChar

/-- Test whether p is a leading segment of s (Python str.startswith). -/
def startsWithL : List Char → List Char → Bool
  | [], _ => true
  | _ :: _, [] => false
  | p :: ps, c :: cs => p == c && startsWithL ps cs

/-- Url models the urlsplit view of a URL string: scheme, netloc, path,
the query parsed by parse_qsl with keep_blank_values=True into ordered
key-value pairs, and the fragment. -/
structure Url where
  scheme : List Char
  netloc : List Char
  path : List Char
  query : List (List Char × List Char)
  fragment : List Char
  deriving DecidableEq, Repr

/-- The filter condition of _strip_tracking (src/scraper.py line 153):
k.lower().startswith(("utm_", "fbclid", "gclid", "mc_eid")).  Note the
Python startswith tuple prefix-matches every alternative. -/
def isTrackingKey (k : List Char) : Bool :=
  startsWithL "utm_".toList (lowerL k) ||
  startsWithL "fbclid".toList (lowerL k) ||
  startsWithL "gclid".toList (lowerL k) ||
  startsWithL "mc_eid".toList (lowerL k)

/-- Embedding of _strip_tracking (src/scraper.py lines 150-154): keep the
non-tracking query pairs in order and drop the fragment, preserving
scheme, netloc and path. -/
def strip_tracking (u : Url) : Url :=
  { scheme := u.scheme
    netloc := u.netloc
    path := u.path
    query := u.query.filter (fun kv => !isTrackingKey kv.1)
    fragment := [] }

/-- Spec-side canonicalizer, written from the specification words for C3:
tracking parameters are those whose name prefix-matches utm_ or
exact-matches fbclid, gclid or mc_eid (case-insensitively); the fragment
is stripped and the remaining query pairs keep their original order. -/
def specTrackingKeyExact (k : List Char) : Bool :=
  startsWithL "utm_".toList (lowerL k) ||
  lowerL k == "fbclid".toList ||
  lowerL k == "gclid".toList ||
  lowerL k == "mc_eid".toList

/-- Canonicalization as the spec literally describes it (exact match on
fbclid, gclid, mc_eid). -/
def canonicalizeSpecExact (u : Url) : Url :=
  { scheme := u.scheme
    netloc := u.netloc
    path := u.path
    query := u.query.filter (fun kv => !specTrackingKeyExact kv.1)
    fragment := [] }

/-- The amended spec-side canonicalizer: all four tracking patterns are
prefix-matched, case-insensitively. -/
def specTrackingKeyPrefixed (k : List Char) : Bool :=
  ["utm_".toList, "fbclid".toList, "gclid".toList, "mc_eid".toList].any
    (fun p => startsWithL p (lowerL k))

/-- Canonicalization as amended: remove every query pair whose lowercased
name begins with utm_, fbclid, gclid or mc_eid; strip the fragment; keep
the rest in order. -/
def canonicalizeSpecPrefixed (u : Url) : Url :=
  { scheme := u.scheme
    netloc := u.netloc
    path := u.path
    query := u.query.filter (fun kv => !specTrackingKeyPrefixed kv.1)
    fragment := [] }

/-- Strip a leading www. from a lowercased host, as in src/scraper.py line
135: naked = host[4:] if host.startswith("www.") else host. -/
def nakedHost (host : List Char) : List Char :=
  if startsWithL "www.".toList host then host.drop 4 else host

/-- Python str.split(sep) for a one-character separator: every occurrence
separates, empty pieces are kept, and the empty string yields one empty
piece. -/
def splitOnChar (sep : Char) : List Char → List (List Char)
  | [] => [[]]
  | c :: cs =>
    let r := splitOnChar sep cs
    if c == sep then [] :: r
    else (c :: r.headD []) :: r.tail

/-- The last two dot-separated labels of a host joined back with a dot,
as in src/scraper.py line 140: ".".join(parts[-2:]). -/
def lastTwoLabels (s : List Char) : List Char :=
  let parts := splitOnChar '.' s
  List.intercalate ['.'] (parts.drop (parts.length - 2))

/-- Embedding of same_site_allowed_domains (src/scraper.py lines 127-141)
on the hostname already extracted by urlparse; the Python set of allowed
hosts is modelled as a Finset. -/
def same_site_allowed_domains (rawHost : List Char) : Finset (List Char) :=
  let host := lowerL rawHost
  if host = [] then ∅
  else
    let naked := nakedHost host
    let base : Finset (List Char) := {host, naked, "www.".toList ++ naked}
    if (splitOnChar '.' naked).length > 2 then insert (lastTwoLabels naked) base
    else base

/-- ASCII whitespace, the characters matched by the Python regex class
for whitespace and stripped by str.strip on ASCII text. -/
def isSpaceChar (c : Char) : Bool :=
  c == ' ' || c == '\t' || c == '\n' || c == '\r' || c == '\x0b' || c == '\x0c'

/-- Python str.strip with no argument: drop leading and trailing
whitespace. -/
def stripL (s : List Char) : List Char :=
  ((s.dropWhile isSpaceChar).reverse.dropWhile isSpaceChar).reverse

/-- Index of the last occurrence of ch in the list, if any (Python
str.rfind, with none standing for the sentinel -1). -/
def rfindChar (ch : Char) : List Char → Option Nat
  | [] => none
  | c :: cs =>
    match rfindChar ch cs with
    | some i => some (i + 1)
    | none => if c == ch then some 0 else none

/-- One iteration of the chunking while-loop of make_pdf (src/scraper.py
lines 313-321): returns the emitted piece and the remaining paragraph.
chunk = para[:1600]; cut = chunk.rfind(" "); if cut == -1 or
len(para) <= 1600 the whole remainder is emitted, else the piece is
para[:cut] and the loop continues on para[cut+1:]. -/
def chunkStep (para : List Char) : List Char × List Char :=
  match rfindChar ' ' (para.take 1600) with
  | none => (para, [])
  | some cut =>
    if para.length ≤ 1600 then (para, [])
    else (para.take cut, para.drop (cut + 1))

/-- The chunking while-loop, fueled: none signals fuel exhaustion before
the loop finished, so a some result certifies termination within the
given number of iterations. -/
def chunkLoop : Nat → List Char → Option (List (List Char))
  | 0, para => if para.isEmpty then some [] else none
  | fuel + 1, para =>
    if para.isEmpty then some []
    else (chunkLoop fuel (chunkStep para).2).map (fun r => (chunkStep para).1 :: r)

/-- The pieces emitted for one paragraph; fuel length+1 is proved
sufficient in chunkLoop_halts. -/
def chunkPara (para : List Char) : List (List Char) :=
  (chunkLoop (para.length + 1) para).getD []

/-- Join chunks back with a single space between consecutive chunks. -/
def joinWithSpace : List (List Char) → List Char
  | [] => []
  | [c] => c
  | c :: r => c ++ ' ' :: joinWithSpace r

/-- Splitter for the Python regex split on a blank line, the pattern
backslash-n backslash-s-star backslash-n of src/scraper.py line 304: at a
newline whose following whitespace run contains another newline, the
greedy match ends at the last newline of that run and a paragraph
boundary is cut there.  Fueled; one character is consumed per unit of
fuel at least, so fuel length+1 never exhausts. -/
def splitBlankAux : Nat → List Char → List Char → List (List Char)
  | 0, acc, s => [acc.reverse ++ s]
  | _ + 1, acc, [] => [acc.reverse]
  | fuel + 1, acc, c :: rest =>
    if c == '\n' then
      match rfindChar '\n' (rest.takeWhile isSpaceChar) with
      | some k => acc.reverse :: splitBlankAux fuel [] (rest.drop (k + 1))
      | none => splitBlankAux fuel (c :: acc) rest
    else splitBlankAux fuel (c :: acc) rest

/-- Split a text on blank-line boundaries, as re.split of the blank-line
pattern in make_pdf. -/
def splitBlank (s : List Char) : List (List Char) :=
  splitBlankAux (s.length + 1) [] s

/-- The paragraphs make_pdf feeds to the chunking loop (src/scraper.py
lines 301-311): split the stripped body on blank lines, fall back to the
raw body as one paragraph when fewer than two pieces result, then strip
each paragraph and keep the nonempty ones. -/
def pdfParagraphs (raw : List Char) : List (List Char) :=
  let ps := splitBlank (stripL raw)
  let qs := if ps.length < 2 then [raw] else ps
  (qs.map stripL).filter (fun p => !p.isEmpty)

end Scraper

open Scraper

/-- C2: canonicalization is idempotent. -/
theorem strip_tracking_idempotent (u : Url) :
    strip_tracking (strip_tracking u) = strip_tracking u := by
  simp [strip_tracking, List.filter_filter]

example :
    strip_tracking
      { scheme := "https".toList, netloc := "example.com".toList,
        path := "/a".toList,
        query := [("utm_source".toList, "x".toList), ("q".toList, "1".toList)],
        fragment := "top".toList } =
      { scheme := "https".toList, netloc := "example.com".toList,
        path := "/a".toList,
        query := [("q".toList, "1".toList)],
        fragment := [] } := by decide

/-- C3 counterexample: the query parameter named fbclid2 merely begins
with fbclid, so the claim says it is preserved, but _strip_tracking
prefix-matches and removes it; the code therefore differs from the
exact-match canonicalizer the claim describes. -/
theorem strip_tracking_prefix_counterexample :
    (strip_tracking
        { scheme := "https".toList, netloc := "example.com".toList,
          path := "/a".toList,
          query := [("fbclid2".toList, "1".toList)],
          fragment := [] }).query = [] ∧
    strip_tracking
        { scheme := "https".toList, netloc := "example.com".toList,
          path := "/a".toList,
          query := [("fbclid2".toList, "1".toList)],
          fragment := [] } ≠
      canonicalizeSpecExact
        { scheme := "https".toList, netloc := "example.com".toList,
          path := "/a".toList,
          query := [("fbclid2".toList, "1".toList)],
          fragment := [] } := by
  constructor
  · decide
  · decide

/-- C3 amended: canonicalization removes exactly the query parameters
whose lowercased name prefix-matches one of utm_, fbclid, gclid, mc_eid,
strips the fragment, and preserves the remaining parameters in order;
consequently inserting a tracking parameter anywhere in the query, or
changing the fragment, does not change the canonical form. -/
theorem strip_tracking_spec (u : Url) (pre post : List (List Char × List Char))
    (k v f : List Char) (hk : isTrackingKey k = true) :
    strip_tracking u = canonicalizeSpecPrefixed u ∧
    strip_tracking { u with query := pre ++ (k, v) :: post } =
      strip_tracking { u with query := pre ++ post } ∧
    strip_tracking { u with fragment := f } = strip_tracking u := by
  refine ⟨?_, ?_, rfl⟩
  · have hpred : (fun kv : List Char × List Char => !isTrackingKey kv.1) =
        (fun kv => !specTrackingKeyPrefixed kv.1) := by
      funext kv
      simp [isTrackingKey, specTrackingKeyPrefixed, Bool.or_assoc]
    simp [strip_tracking, canonicalizeSpecPrefixed, hpred]
  · simp [strip_tracking, List.filter_append, List.filter_cons, hk]

/-- Witness for C3 amended at a concrete URL and tracking parameter. -/
theorem strip_tracking_spec_witness :
    strip_tracking
        { scheme := "https".toList, netloc := "e.com".toList,
          path := "/p".toList, query := [("q".toList, "1".toList)],
          fragment := "x".toList } =
      canonicalizeSpecPrefixed
        { scheme := "https".toList, netloc := "e.com".toList,
          path := "/p".toList, query := [("q".toList, "1".toList)],
          fragment := "x".toList } ∧
    strip_tracking
        { scheme := "https".toList, netloc := "e.com".toList,
          path := "/p".toList,
          query := [("q".toList, "1".toList)] ++
            ("gclid".toList, "z".toList) :: [],
          fragment := "x".toList } =
      strip_tracking
        { scheme := "https".toList, netloc := "e.com".toList,
          path := "/p".toList, query := [("q".toList, "1".toList)] ++ [],
          fragment := "x".toList } ∧
    strip_tracking
        { scheme := "https".toList, netloc := "e.com".toList,
          path := "/p".toList, query := [("q".toList, "1".toList)],
          fragment := "y".toList } =
      strip_tracking
        { scheme := "https".toList, netloc := "e.com".toList,
          path := "/p".toList, query := [("q".toList, "1".toList)],
          fragment := "x".toList } := by
  exact strip_tracking_spec
    { scheme := "https".toList, netloc := "e.com".toList,
      path := "/p".toList, query := [("q".toList, "1".toList)],
      fragment := "x".toList }
    [("q".toList, "1".toList)] [] "gclid".toList "z".toList "y".toList
    (by decide)

/-- C4 counterexample: for the non-www seed host blog.example.com the
claim says the last-two-label apex example.com is not in the scope set,
but the code adds it (src/scraper.py lines 138-140). -/
theorem same_site_apex_counterexample :
    "example.com".toList ∈ same_site_allowed_domains "blog.example.com".toList := by
  decide

/-- C4 amended: for a seed with nonempty lowercased host, the scope set
consists of exactly the lowercased host, the host with a leading www.
removed (naked host), the www. variant of the naked host, and, when the
naked host has more than two dot-separated labels, its last two labels. -/
theorem same_site_allowed_domains_mem (rawHost x : List Char)
    (h : lowerL rawHost ≠ []) :
    x ∈ same_site_allowed_domains rawHost ↔
      (x = lowerL rawHost ∨ x = nakedHost (lowerL rawHost) ∨
       x = "www.".toList ++ nakedHost (lowerL rawHost) ∨
       ((splitOnChar '.' (nakedHost (lowerL rawHost))).length > 2 ∧
        x = lastTwoLabels (nakedHost (lowerL rawHost)))) := by
  unfold same_site_allowed_domains
  simp only [h, if_false]
  by_cases hlen : (splitOnChar '.' (nakedHost (lowerL rawHost))).length > 2
  · simp [hlen, Finset.mem_insert]
    try tauto
  · simp [hlen, Finset.mem_insert]
    try tauto

/-- Witness for C4 amended: membership characterization at the host
blog.example.com and candidate example.com. -/
theorem same_site_allowed_domains_mem_witness :
    "example.com".toList ∈ same_site_allowed_domains "blog.example.com".toList ↔
      ("example.com".toList = lowerL "blog.example.com".toList ∨
       "example.com".toList = nakedHost (lowerL "blog.example.com".toList) ∨
       "example.com".toList =
         "www.".toList ++ nakedHost (lowerL "blog.example.com".toList) ∨
       ((splitOnChar '.' (nakedHost (lowerL "blog.example.com".toList))).length > 2 ∧
        "example.com".toList =
          lastTwoLabels (nakedHost (lowerL "blog.example.com".toList)))) := by
  exact same_site_allowed_domains_mem "blog.example.com".toList
    "example.com".toList (by decide)

namespace Scraper

/-- If rfind reports no occurrence, the character is not in the list. -/
lemma rfindChar_none_not_mem {ch : Char} {l : List Char}
    (h : rfindChar ch l = none) : ∀ x ∈ l, x ≠ ch := by
  induction l with
  | nil => intro x hx; cases hx
  | cons c cs ih =>
    intro x hx
    unfold rfindChar at h
    cases hr : rfindChar ch cs with
    | some i => rw [hr] at h; simp at h
    | none =>
      rw [hr] at h
      by_cases hc : c == ch
      · simp [hc] at h
      · rcases List.mem_cons.mp hx with rfl | hx
        · simpa using hc
        · exact ih hr x hx

/-- The index rfind returns holds the sought character. -/
lemma rfindChar_some_get {ch : Char} {l : List Char} {i : Nat}
    (h : rfindChar ch l = some i) : l.get? i = some ch := by
  induction l generalizing i with
  | nil => simp [rfindChar] at h
  | cons c cs ih =>
    unfold rfindChar at h
    cases hr : rfindChar ch cs with
    | some j =>
      rw [hr] at h
      obtain rfl : j + 1 = i := by simpa using h
      simpa using ih hr
    | none =>
      rw [hr] at h
      by_cases hc : c == ch
      · simp [hc] at h
        obtain rfl : 0 = i := h
        simpa using (beq_iff_eq.mp hc : c = ch)
      · simp [hc] at h

/-- Each loop iteration on a nonempty remainder strictly shortens it. -/
lemma chunkStep_shrink {para : List Char} (h : para ≠ []) :
    (chunkStep para).2.length < para.length := by
  have hpos : 0 < para.length := List.length_pos.mpr h
  unfold chunkStep
  cases hr : rfindChar ' ' (para.take 1600) with
  | none => simpa using hpos
  | some cut =>
    by_cases hle : para.length ≤ 1600
    · simpa [hle] using hpos
    · simp only [hle, if_false]
      simp [List.length_drop]
      omega

/-- With fuel exceeding the remainder length the loop always finishes. -/
lemma chunkLoop_halts_of_lt : ∀ n (para : List Char), para.length < n →
    ∃ r, chunkLoop n para = some r := by
  intro n
  induction n with
  | zero => intro para h; exact absurd h (Nat.not_lt_zero _)
  | succ m ih =>
    intro para h
    by_cases he : para.isEmpty
    · exact ⟨[], by simp [chunkLoop, he]⟩
    · have hne : para ≠ [] := by simpa using he
      have hs := chunkStep_shrink hne
      obtain ⟨r, hr⟩ := ih (chunkStep para).2 (by omega)
      exact ⟨(chunkStep para).1 :: r, by simp [chunkLoop, he, hr]⟩

end Scraper

/-- C10: the chunking loop of make_pdf terminates on every paragraph:
a nonempty remainder strictly shrinks at each iteration (the split
position satisfies cut + 1 at least 1), so fuel length + 1 suffices and
no input makes the loop run forever. -/
theorem make_pdf_chunk_loop_terminates (para : List Char) :
    (∀ _h : para ≠ [], (chunkStep para).2.length < para.length) ∧
    ∃ r, chunkLoop (para.length + 1) para = some r := by
  exact ⟨fun h => chunkStep_shrink h,
    chunkLoop_halts_of_lt _ _ (Nat.lt_succ_self _)⟩

/-- Witness for C10 at the one-character paragraph a. -/
theorem make_pdf_chunk_loop_terminates_witness :
    (chunkStep ['a']).2.length < (['a'] : List Char).length ∧
    ∃ r, chunkLoop ((['a'] : List Char).length + 1) ['a'] = some r :=
  ⟨(make_pdf_chunk_loop_terminates ['a']).1 (by decide),
   (make_pdf_chunk_loop_terminates ['a']).2⟩

namespace Scraper

/-- Each iteration either emits the whole remainder, or emits a piece
that rejoins the new remainder with the removed space to give back the
old remainder. -/
lemma chunkStep_cases (para : List Char) :
    ((chunkStep para).1 = para ∧ (chunkStep para).2 = []) ∨
    ((chunkStep para).1 ++ ' ' :: (chunkStep para).2 = para ∧
     (chunkStep para).2 ≠ []) := by
  unfold chunkStep
  cases hr : rfindChar ' ' (para.take 1600) with
  | none => exact Or.inl ⟨rfl, rfl⟩
  | some cut =>
    by_cases hle : para.length ≤ 1600
    · simp [hle]
    · right
      have hget : (para.take 1600).get? cut = some ' ' := rfindChar_some_get hr
      have hcutlt : cut < (para.take 1600).length :=
        (List.get?_eq_some.mp hget).1
      have hcut1600 : cut < 1600 := by
        have : (para.take 1600).length ≤ 1600 := by
          simp [List.length_take]
        omega
      have hgetp : para.get? cut = some ' ' := by
        rwa [List.get?_take hcut1600] at hget
      obtain ⟨hlt, hval⟩ := List.get?_eq_some.mp hgetp
      constructor
      · simp only [hle, if_false]
        conv_rhs => rw [← List.take_append_drop cut para]
        rw [List.drop_eq_get_cons hlt, hval]
      · simp only [hle, if_false]
        have : 0 < (para.drop (cut + 1)).length := by
          simp [List.length_drop]
          omega
        exact List.ne_nil_of_length_pos this

/-- Every emitted piece is within the 1600-character budget, except the
graceful fallback where the first 1600 characters hold no space. -/
lemma chunkStep_piece_bound (para : List Char) :
    (chunkStep para).1.length ≤ 1600 ∨
    ∀ x ∈ (chunkStep para).1.take 1600, x ≠ ' ' := by
  unfold chunkStep
  cases hr : rfindChar ' ' (para.take 1600) with
  | none => exact Or.inr (fun x hx => rfindChar_none_not_mem hr x hx)
  | some cut =>
    by_cases hle : para.length ≤ 1600
    · exact Or.inl (by simpa [hle])
    · left
      have hget : (para.take 1600).get? cut = some ' ' := rfindChar_some_get hr
      have hcutlt : cut < (para.take 1600).length :=
        (List.get?_eq_some.mp hget).1
      have hcut1600 : cut < 1600 := by
        have : (para.take 1600).length ≤ 1600 := by
          simp [List.length_take]
        omega
      simp only [hle, if_false]
      simp [List.length_take]
      omega

/-- Joining a nonempty tail inserts one space after the head chunk. -/
lemma joinWithSpace_cons_of_ne (c : List Char) {r : List (List Char)}
    (h : r ≠ []) :
    joinWithSpace (c :: r) = c ++ ' ' :: joinWithSpace r := by
  cases r with
  | nil => exact absurd rfl h
  | cons d l => rfl

/-- With enough fuel, all pieces respect the size bound up to the
fallback, and rejoining them with single spaces restores the paragraph. -/
lemma chunkLoop_sound : ∀ n (para : List Char) r, para.length < n →
    chunkLoop n para = some r →
    (∀ c ∈ r, c.length ≤ 1600 ∨ ∀ x ∈ c.take 1600, x ≠ ' ') ∧
    joinWithSpace r = para := by
  intro n
  induction n with
  | zero => intro para r h; exact absurd h (Nat.not_lt_zero _)
  | succ m ih =>
    intro para r h hr
    by_cases he : para.isEmpty
    · have hpe : para = [] := by simpa using he
      have : r = [] := by
        simpa [chunkLoop, he] using hr
      subst this
      simp [joinWithSpace, hpe]
    · have hne : para ≠ [] := by simpa using he
      rw [chunkLoop, if_neg (by simpa using he)] at hr
      obtain ⟨r', hr', rfl⟩ := Option.map_eq_some'.mp hr
      have hs := chunkStep_shrink hne
      obtain ⟨hb', hj'⟩ := ih (chunkStep para).2 r' (by omega) hr'
      refine ⟨?_, ?_⟩
      · intro c hc
        rcases List.mem_cons.mp hc with rfl | hc
        · exact chunkStep_piece_bound para
        · exact hb' c hc
      · rcases chunkStep_cases para with ⟨h1, h2⟩ | ⟨h1, h2⟩
        · rw [h2] at hr'
          have : r' = [] := by
            cases m with
            | zero => simpa [chunkLoop] using hr'
            | succ m0 => simpa [chunkLoop] using hr'
          subst this
          simpa [joinWithSpace] using h1
        · have hr'ne : r' ≠ [] := by
            intro hE
            apply h2
            rw [hE] at hj'
            simpa [joinWithSpace] using hj'.symm
          rw [joinWithSpace_cons_of_ne _ hr'ne, hj']
          exact h1

end Scraper

/-- C5 (amended): for every body text, each paragraph obtained by the
blank-line split (with the raw-body fallback and per-paragraph strip of
make_pdf) is chunked by a terminating loop whose pieces stay within
1,600 characters except for the graceful fallback piece having no space
among its first 1,600 characters, and joining the pieces with a single
space at each split point reconstructs the paragraph exactly. -/
theorem make_pdf_chunks_spec (raw para : List Char)
    (_hp : para ∈ pdfParagraphs raw) :
    ∃ r, chunkLoop (para.length + 1) para = some r ∧ chunkPara para = r ∧
      (∀ c ∈ r, c.length ≤ 1600 ∨ ∀ x ∈ c.take 1600, x ≠ ' ') ∧
      joinWithSpace r = para := by
  obtain ⟨r, hr⟩ := chunkLoop_halts_of_lt _ _ (Nat.lt_succ_self _)
  obtain ⟨hb, hj⟩ := chunkLoop_sound _ _ _ (Nat.lt_succ_self _) hr
  exact ⟨r, hr, by simp [chunkPara, hr], hb, hj⟩

/-- Witness for C5 amended on the two-word body ab cd. -/
theorem make_pdf_chunks_spec_witness :
    ∃ r, chunkLoop ("ab cd".toList.length + 1) "ab cd".toList = some r ∧
      chunkPara "ab cd".toList = r ∧
      (∀ c ∈ r, c.length ≤ 1600 ∨ ∀ x ∈ c.take 1600, x ≠ ' ') ∧
      joinWithSpace r = "ab cd".toList :=
  make_pdf_chunks_spec "ab cd".toList "ab cd".toList (by decide)

namespace Scraper

/-- A single 1601-character paragraph: 800 letters a, a space, then 800
letters b.  The chunk loop splits it at the space and drops that space. -/
def bigPara : List Char := List.replicate 800 'a' ++ ' ' :: List.replicate 800 'b'

lemma bigPara_length : bigPara.length = 1601 := by
  simp [bigPara]

lemma rfindChar_append (ch : Char) (xs ys : List Char) :
    rfindChar ch (xs ++ ys) =
      match rfindChar ch ys with
      | some i => some (xs.length + i)
      | none => rfindChar ch xs := by
  induction xs with
  | nil =>
    cases hy : rfindChar ch ys with
    | some i => simp [hy]
    | none => simp [hy, rfindChar]
  | cons x xs ih =>
    rw [List.cons_append]
    rw [show rfindChar ch (x :: (xs ++ ys)) =
        (match rfindChar ch (xs ++ ys) with
         | some i => some (i + 1)
         | none => if x == ch then some 0 else none) from rfl]
    rw [ih]
    cases hy : rfindChar ch ys with
    | some i =>
      show some (xs.length + i + 1) = some ((x :: xs).length + i)
      simp only [List.length_cons]
      congr 1
      omega
    | none =>
      rfl

lemma rfindChar_replicate {ch c : Char} (h : c ≠ ch) (n : Nat) :
    rfindChar ch (List.replicate n c) = none := by
  induction n with
  | zero => rfl
  | succ m ih =>
    rw [List.replicate_succ]
    rw [show rfindChar ch (c :: List.replicate m c) =
        (match rfindChar ch (List.replicate m c) with
         | some i => some (i + 1)
         | none => if c == ch then some 0 else none) from rfl]
    rw [ih]
    simp [h]

lemma bigPara_take_1600 :
    bigPara.take 1600 = List.replicate 800 'a' ++ ' ' :: List.replicate 799 'b' := by
  have h : bigPara = (List.replicate 800 'a' ++ ' ' :: List.replicate 799 'b') ++ ['b'] := by
    rw [bigPara, show (800 : Nat) = 799 + 1 from rfl, List.replicate_succ']
    simp
  rw [h]
  rw [List.take_left']
  simp

lemma chunkStep_bigPara :
    chunkStep bigPara = (List.replicate 800 'a', List.replicate 800 'b') := by
  have hrf : rfindChar ' ' (bigPara.take 1600) = some 800 := by
    rw [bigPara_take_1600, rfindChar_append]
    rw [show rfindChar ' ' (' ' :: List.replicate 799 'b') =
        (match rfindChar ' ' (List.replicate 799 'b') with
         | some i => some (i + 1)
         | none => if ' ' == ' ' then some 0 else none) from rfl]
    rw [rfindChar_replicate (by decide) 799]
    simp
  rw [chunkStep, hrf]
  show (if bigPara.length ≤ 1600 then (bigPara, [])
    else (bigPara.take 800, bigPara.drop (800 + 1))) =
    (List.replicate 800 'a', List.replicate 800 'b')
  rw [if_neg (by rw [bigPara_length]; omega)]
  have h1 : List.take 800 bigPara = List.replicate 800 'a' := by
    rw [show bigPara = List.replicate 800 'a' ++ (' ' :: List.replicate 800 'b')
        from rfl]
    rw [List.take_left']
    simp
  have h2 : List.drop (800 + 1) bigPara = List.replicate 800 'b' := by
    rw [show bigPara = (List.replicate 800 'a' ++ [' ']) ++ List.replicate 800 'b'
        by simp [bigPara]]
    rw [List.drop_left']
    simp
  rw [h1, h2]

lemma chunkStep_repb :
    chunkStep (List.replicate 800 'b') = (List.replicate 800 'b', []) := by
  rw [chunkStep]
  rw [List.take_all_of_le (by simp)]
  rw [rfindChar_replicate (by decide) 800]

lemma chunkPara_bigPara :
    chunkPara bigPara = [List.replicate 800 'a', List.replicate 800 'b'] := by
  have h800 : (List.replicate 800 'b').isEmpty = false := by
    rw [List.replicate_succ]
    rfl
  have hbig : bigPara.isEmpty = false := by
    rw [bigPara, List.replicate_succ]
    rfl
  rw [chunkPara, bigPara_length]
  rw [show (1601 + 1 : Nat) = 1601 + 1 from rfl]
  rw [chunkLoop, hbig]
  rw [chunkStep_bigPara]
  simp only []
  rw [show (1601 : Nat) = 1600 + 1 from rfl, chunkLoop, h800, chunkStep_repb]
  simp only []
  rw [show (1600 : Nat) = 1599 + 1 from rfl, chunkLoop]
  rfl

/-- On newline-free input the blank-line splitter returns the single
piece made of the accumulator and the rest. -/
lemma splitBlankAux_no_newline : ∀ fuel acc (s : List Char), s.length < fuel →
    (∀ x ∈ s, x ≠ '\n') → splitBlankAux fuel acc s = [acc.reverse ++ s] := by
  intro fuel
  induction fuel with
  | zero => intro acc s h _; exact absurd h (Nat.not_lt_zero _)
  | succ m ih =>
    intro acc s h hn
    cases s with
    | nil => simp [splitBlankAux]
    | cons c rest =>
      have hc : (c == '\n') = false := by
        have := hn c (List.mem_cons_self c rest)
        simp [this]
      rw [splitBlankAux, hc]
      rw [ih (c :: acc) rest (by simp at h; omega)
        (fun x hx => hn x (List.mem_cons_of_mem c hx))]
      simp

lemma bigPara_no_newline : ∀ x ∈ bigPara, x ≠ '\n' := by
  intro x hx
  rw [bigPara] at hx
  rcases List.mem_append.mp hx with hx | hx
  · rw [List.eq_of_mem_replicate hx]; decide
  · rcases List.mem_cons.mp hx with rfl | hx
    · decide
    · rw [List.eq_of_mem_replicate hx]; decide

lemma bigPara_cons :
    bigPara = 'a' :: (List.replicate 799 'a' ++ ' ' :: List.replicate 800 'b') := by
  rw [bigPara, show (800 : Nat) = 799 + 1 from rfl, List.replicate_succ,
    List.cons_append]

lemma bigPara_snoc :
    bigPara = (List.replicate 800 'a' ++ ' ' :: List.replicate 799 'b') ++ ['b'] := by
  rw [bigPara, show (800 : Nat) = 799 + 1 from rfl, List.replicate_succ']
  simp

lemma stripL_bigPara : stripL bigPara = bigPara := by
  have hxa : isSpaceChar 'a' = false := by decide
  have hxb : isSpaceChar 'b' = false := by decide
  have h1 : bigPara.dropWhile isSpaceChar = bigPara := by
    rw [bigPara_cons, List.dropWhile_cons, hxa, if_neg Bool.false_ne_true]
  have h2 : bigPara.reverse.dropWhile isSpaceChar = bigPara.reverse := by
    rw [bigPara_snoc, List.reverse_append]
    rw [show (['b'] : List Char).reverse ++
        (List.replicate 800 'a' ++ ' ' :: List.replicate 799 'b').reverse =
        'b' :: (List.replicate 800 'a' ++ ' ' :: List.replicate 799 'b').reverse
        from rfl]
    rw [List.dropWhile_cons, hxb, if_neg Bool.false_ne_true]
  rw [stripL, h1, h2, List.reverse_reverse]

lemma pdfParagraphs_bigPara : pdfParagraphs bigPara = [bigPara] := by
  have hsplit : splitBlank (stripL bigPara) = [bigPara] := by
    rw [stripL_bigPara, splitBlank,
      splitBlankAux_no_newline _ _ _ (Nat.lt_succ_self _) bigPara_no_newline]
    simp
  have hne : bigPara.isEmpty = false := by
    rw [bigPara_cons]
    rfl
  show (((if (splitBlank (stripL bigPara)).length < 2
      then [bigPara] else splitBlank (stripL bigPara)).map stripL).filter
      (fun p => !p.isEmpty)) = [bigPara]
  rw [hsplit]
  rw [if_pos (by simp)]
  rw [List.map_cons, List.map_nil, stripL_bigPara]
  rw [List.filter_cons, hne]
  simp

end Scraper

/-- C5 counterexample: the 1,601-character body bigPara is a single
paragraph of itself under the blank-line split of make_pdf, the loop
emits two pieces for it and drops the space between them, so plain
concatenation of the emitted chunks does not reconstruct the original
paragraph. -/
theorem make_pdf_join_counterexample :
    pdfParagraphs Scraper.bigPara = [Scraper.bigPara] ∧
    (chunkPara Scraper.bigPara).join ≠ Scraper.bigPara := by
  refine ⟨Scraper.pdfParagraphs_bigPara, ?_⟩
  rw [Scraper.chunkPara_bigPara]
  intro h
  have hlen := congrArg List.length h
  rw [Scraper.bigPara_length] at hlen
  simp at hlen

namespace Scraper

/-- Schedule the links discovered at depth d1 against depth limit D and
the duplicate filter seen, as the Scrapy machinery configured by
crawl_to_pdfs does for the follow-ups yielded in parse (src/scraper.py
lines 449-462, 504-506): a request whose depth exceeds D is dropped
before reaching the duplicate filter; otherwise it is scheduled exactly
when its URL is not in the filter, which then records it.  Returns the
new filter and the new FIFO entries in discovery order; follow-up
requests carry no errback, hence the false flag. -/
def enqueueLinks (D d1 : Nat) : List String → List String →
    List String × List (String × Nat × Bool)
  | [], seen => (seen, [])
  | l :: ls, seen =>
    if d1 ≤ D then
      if seen.contains l then enqueueLinks D d1 ls seen
      else
        ((enqueueLinks D d1 ls (l :: seen)).1,
         (l, d1, false) :: (enqueueLinks D d1 ls (l :: seen)).2)
    else enqueueLinks D d1 ls seen

/-- Fueled breadth-first spider loop over an abstract page graph web,
where web u is the list of same-site canonical links parse extracts on
a successful fetch of u and none models a fetch failure.  Modelled from
the spec for the external scheduler and fetch engine; the wiring is that
of SiteToPDFSpider: a dispatched request with a successful fetch writes
one document and schedules its links at depth+1; a failed fetch writes
the error document only when the request carries the errback flag
(start_requests attaches errback_first only to the seed request, and
parse yields follow-ups without an errback).  Each record (u, b) is one
dispatch, b telling whether a document was produced for it. -/
def crawlLoop (web : String → Option (List String)) (D : Nat) :
    Nat → List (String × Nat × Bool) → List String → List (String × Bool)
  | 0, _, _ => []
  | _ + 1, [], _ => []
  | fuel + 1, (u, d, eb) :: rest, seen =>
    match web u with
    | none => (u, eb) :: crawlLoop web D fuel rest seen
    | some ls =>
      (u, true) :: crawlLoop web D fuel
        (rest ++ (enqueueLinks D (d + 1) ls seen).2)
        (enqueueLinks D (d + 1) ls seen).1

/-- One crawl run of crawl_to_pdfs: the seed is scheduled at depth 0
with the errback and with dont_filter (so the duplicate filter starts
empty), then the loop runs. -/
def crawlRun (web : String → Option (List String)) (seed : String)
    (D fuel : Nat) : List (String × Bool) :=
  crawlLoop web D fuel [(seed, 0, true)] []

/-- URLs of the documents produced during a run. -/
def docUrls (run : List (String × Bool)) : List String :=
  (run.filter (fun r => r.2)).map (fun r => r.1)

/-- u is reachable from the seed in at most n hops along the same-site
links the extractor reports. -/
def reachableWithin (web : String → Option (List String)) (seed : String) :
    Nat → String → Prop
  | 0, u => u = seed
  | n + 1, u => reachableWithin web seed n u ∨
      ∃ v, reachableWithin web seed n v ∧ u ∈ (web v).getD []

lemma reachableWithin_succ {web : String → Option (List String)}
    {seed u : String} {n : Nat} (h : reachableWithin web seed n u) :
    reachableWithin web seed (n + 1) u := Or.inl h

lemma reachableWithin_mono {web : String → Option (List String)}
    {seed u : String} {n m : Nat} (hnm : n ≤ m)
    (h : reachableWithin web seed n u) : reachableWithin web seed m u := by
  induction hnm with
  | refl => exact h
  | step _ ih => exact reachableWithin_succ ih

lemma enqueueLinks_mem {D d1 : Nat} : ∀ (ls seen : List String)
    (e : String × Nat × Bool), e ∈ (enqueueLinks D d1 ls seen).2 →
    e.1 ∈ ls ∧ e.2.1 = d1 ∧ e.2.2 = false ∧ d1 ≤ D := by
  intro ls
  induction ls with
  | nil => intro seen e he; simp [enqueueLinks] at he
  | cons l ls ih =>
    intro seen e he
    rw [enqueueLinks] at he
    by_cases hD : d1 ≤ D
    · rw [if_pos hD] at he
      by_cases hc : seen.contains l
      · rw [if_pos hc] at he
        obtain ⟨h1, h2, h3, h4⟩ := ih seen e he
        exact ⟨List.mem_cons_of_mem l h1, h2, h3, h4⟩
      · rw [if_neg hc] at he
        rcases List.mem_cons.mp he with rfl | he
        · exact ⟨List.mem_cons_self l ls, rfl, rfl, hD⟩
        · obtain ⟨h1, h2, h3, h4⟩ := ih (l :: seen) e he
          exact ⟨List.mem_cons_of_mem l h1, h2, h3, h4⟩
    · rw [if_neg hD] at he
      obtain ⟨h1, h2, h3, h4⟩ := ih seen e he
      exact ⟨List.mem_cons_of_mem l h1, h2, h3, h4⟩

lemma enqueueLinks_of_depth_gt {D d1 : Nat} (h : ¬ d1 ≤ D) :
    ∀ (ls seen : List String), enqueueLinks D d1 ls seen = (seen, []) := by
  intro ls
  induction ls with
  | nil => intro seen; rfl
  | cons l ls ih => intro seen; rw [enqueueLinks, if_neg h, ih]

lemma crawlLoop_nil (web : String → Option (List String)) (D fuel : Nat)
    (seen : List String) : crawlLoop web D fuel [] seen = [] := by
  cases fuel <;> rfl

/-- Soundness of the dispatch loop for the depth bound: if every queued
entry is within the depth limit and reachable within its recorded depth,
then every record is for a URL reachable within D hops. -/
lemma crawlLoop_reach (web : String → Option (List String)) (seed : String)
    (D : Nat) : ∀ (fuel : Nat) (frontier : List (String × Nat × Bool))
    (seen : List String),
    (∀ e ∈ frontier, e.2.1 ≤ D ∧ reachableWithin web seed e.2.1 e.1) →
    ∀ u b, (u, b) ∈ crawlLoop web D fuel frontier seen →
    reachableWithin web seed D u := by
  intro fuel
  induction fuel with
  | zero => intro frontier seen _ u b h; simp [crawlLoop] at h
  | succ m ih =>
    intro frontier seen hinv u b h
    cases frontier with
    | nil => simp [crawlLoop] at h
    | cons e0 rest =>
      obtain ⟨u0, d, eb⟩ := e0
      obtain ⟨hdD, hreach⟩ := hinv (u0, d, eb) (List.mem_cons_self _ _)
      cases hw : web u0 with
      | none =>
        rw [crawlLoop, hw] at h
        rcases List.mem_cons.mp h with hh | hh
        · obtain ⟨rfl, rfl⟩ := Prod.mk.injEq .. ▸ And.intro
            (congrArg Prod.fst hh) (congrArg Prod.snd hh)
          exact reachableWithin_mono hdD hreach
        · exact ih rest seen
            (fun e he => hinv e (List.mem_cons_of_mem _ he)) u b hh
      | some ls =>
        rw [crawlLoop, hw] at h
        rcases List.mem_cons.mp h with hh | hh
        · have : u = u0 := congrArg Prod.fst hh
          subst this
          exact reachableWithin_mono hdD hreach
        · refine ih _ _ ?_ u b hh
          intro e he
          rcases List.mem_append.mp he with he | he
          · exact hinv e (List.mem_cons_of_mem _ he)
          · obtain ⟨h1, h2, _, h4⟩ := enqueueLinks_mem _ _ _ he
            refine ⟨h2 ▸ h4, ?_⟩
            rw [h2]
            exact Or.inr ⟨u0, hreach, by rw [hw]; exact h1⟩

end Scraper

/-- C1: in a crawl run with depth bound D over page graph web, every
produced document is for a URL reachable from the seed within D
same-site link hops (hence no document for a URL reachable only at
depth greater than D), and a depth-0 run with at least one scheduling
round produces exactly one document, for the seed URL, whether its
fetch succeeds or fails. -/
theorem crawl_depth_bound (web : String → Option (List String))
    (seed : String) (D fuel : Nat) :
    (∀ u, u ∈ docUrls (crawlRun web seed D fuel) →
      reachableWithin web seed D u) ∧
    docUrls (crawlRun web seed 0 (fuel + 1)) = [seed] := by
  constructor
  · intro u hu
    rw [docUrls] at hu
    obtain ⟨⟨u', b⟩, hmem, hfst⟩ := List.mem_map.mp hu
    have hmem' : (u', b) ∈ crawlRun web seed D fuel :=
      List.mem_of_mem_filter hmem
    have hr := crawlLoop_reach web seed D fuel [(seed, 0, true)] []
      (by
        intro e he
        rcases List.mem_cons.mp he with rfl | he
        · exact ⟨Nat.zero_le D, rfl⟩
        · cases he)
      u' b hmem'
    exact (show u' = u from hfst) ▸ hr
  · rw [crawlRun, crawlLoop]
    cases hw : web seed with
    | none => simp [crawlLoop_nil, docUrls]
    | some ls =>
      show docUrls ((seed, true) :: crawlLoop web 0 fuel
        ([] ++ (enqueueLinks 0 (0 + 1) ls []).2)
        (enqueueLinks 0 (0 + 1) ls []).1) = [seed]
      rw [show enqueueLinks 0 (0 + 1) ls [] = ([], []) from
        enqueueLinks_of_depth_gt (by omega) ls []]
      simp [crawlLoop_nil, docUrls]

/-- Witness for C1: the one-page site whose seed has no links, crawled
at depth 0. -/
theorem crawl_depth_bound_witness :
    reachableWithin (fun _ => some []) "a" 0 "a" ∧
    docUrls (crawlRun (fun _ => some []) "a" 0 1) = ["a"] :=
  ⟨(crawl_depth_bound (fun _ => some []) "a" 0 1).1 "a" (by decide),
   (crawl_depth_bound (fun _ => some []) "a" 0 0).2⟩

namespace Scraper

/-- Two-page graph: the seed a links to b and the fetch of b fails. -/
def webOneBadLink : String → Option (List String) :=
  fun u => if u = "a" then some ["b"] else none

/-- Loop invariant for the errback flag: only the seed request carries
an errback, and once any no-errback entry is queued the seed fetch must
have succeeded (all follow-ups descend from a successful fetch, the
first of which is the seed fetch).  Under it, a dispatch record carries
a document exactly when its fetch succeeds or its URL is the seed. -/
lemma crawlLoop_doc_flag (web : String → Option (List String))
    (seed : String) (D : Nat) : ∀ (fuel : Nat)
    (frontier : List (String × Nat × Bool)) (seen : List String),
    (∀ e ∈ frontier, e.2.2 = true → e.1 = seed) →
    ((∃ e, e ∈ frontier ∧ e.2.2 = false) → (web seed).isSome = true) →
    ∀ u b, (u, b) ∈ crawlLoop web D fuel frontier seen →
    b = ((web u).isSome || (u == seed)) := by
  intro fuel
  induction fuel with
  | zero => intro frontier seen _ _ u b h; simp [crawlLoop] at h
  | succ m ih =>
    intro frontier seen hinv1 hinv2 u b h
    cases frontier with
    | nil => simp [crawlLoop] at h
    | cons e0 rest =>
      obtain ⟨u0, d, eb⟩ := e0
      cases hw : web u0 with
      | none =>
        rw [crawlLoop, hw] at h
        rcases List.mem_cons.mp h with hh | hh
        · have hu : u = u0 := congrArg Prod.fst hh
          have hb : b = eb := congrArg Prod.snd hh
          subst hu
          rw [hb, hw]
          cases heb : eb with
          | true =>
            have : u = seed := hinv1 (u, d, true)
              (by rw [heb] at *; exact List.mem_cons_self _ _) rfl
            simp [this]
          | false =>
            have hne : u ≠ seed := by
              intro hus
              have := hinv2 ⟨(u, d, eb), List.mem_cons_self _ _, by rw [heb]⟩
              rw [hus] at hw
              rw [hw] at this
              simp at this
            simp [hne]
        · exact ih rest seen
            (fun e he ht => hinv1 e (List.mem_cons_of_mem _ he) ht)
            (fun ⟨e, he, hf⟩ => hinv2 ⟨e, List.mem_cons_of_mem _ he, hf⟩)
            u b hh
      | some ls =>
        rw [crawlLoop, hw] at h
        rcases List.mem_cons.mp h with hh | hh
        · have hu : u = u0 := congrArg Prod.fst hh
          have hb : b = true := congrArg Prod.snd hh
          subst hu
          rw [hb, hw]
          rfl
        · refine ih _ _ ?_ ?_ u b hh
          · intro e he ht
            rcases List.mem_append.mp he with he | he
            · exact hinv1 e (List.mem_cons_of_mem _ he) ht
            · obtain ⟨_, _, hf, _⟩ := enqueueLinks_mem _ _ _ he
              rw [hf] at ht
              cases ht
          · intro _
            by_cases hus : u0 = seed
            · rw [← hus, hw]
              rfl
            · cases heb : eb with
              | true =>
                exact absurd (hinv1 (u0, d, eb) (List.mem_cons_self _ _)
                  (by rw [heb])) hus
              | false =>
                exact hinv2 ⟨(u0, d, eb), List.mem_cons_self _ _, by rw [heb]⟩

end Scraper

/-- C6 counterexample: crawling seed a at depth 1 over the graph where
a links to b and the fetch of b fails, b is dispatched but no document
at all is produced for it, because only the seed request has the
error-document callback. -/
theorem error_doc_counterexample :
    "b" ∈ (crawlRun Scraper.webOneBadLink "a" 1 3).map (fun r => r.1) ∧
    "b" ∉ docUrls (crawlRun Scraper.webOneBadLink "a" 1 3) := by
  decide

/-- C6 amended: each dispatched URL yields at most one document at that
dispatch, and it yields one exactly when its fetch succeeds or it is
the seed URL: the seed gets an error document on failure via
errback_first, while a non-seed URL whose fetch fails produces no
document because follow-up requests carry no errback. -/
theorem crawl_doc_per_dispatch (web : String → Option (List String))
    (seed : String) (D fuel : Nat) (u : String) (b : Bool)
    (h : (u, b) ∈ crawlRun web seed D fuel) :
    b = ((web u).isSome || (u == seed)) := by
  refine Scraper.crawlLoop_doc_flag web seed D fuel [(seed, 0, true)] []
    ?_ ?_ u b h
  · intro e he _
    rcases List.mem_cons.mp he with rfl | he
    · rfl
    · cases he
  · intro ⟨e, he, hf⟩
    rcases List.mem_cons.mp he with rfl | he
    · cases hf
    · cases he

/-- Witness for C6 amended: the successful seed dispatch in the
two-page graph produces its document. -/
theorem crawl_doc_per_dispatch_witness :
    (true : Bool) =
      ((Scraper.webOneBadLink "a").isSome || ("a" == "a")) :=
  crawl_doc_per_dispatch Scraper.webOneBadLink "a" 1 3 "a" true (by decide)

namespace Scraper

/-- Outcome of one call of the scrape endpoint: result is the HTTP
outcome (error carries the status code and detail of the raised
HTTPException, ok carries the archived pdf file names), and dirs lists
the directories existing after the call, the call having started with
none. -/
structure ScrapeOutcome where
  result : Except (Nat × List Char) (List (List Char))
  dirs : List (List Char)
  deriving Repr

/-- Embedding of the scrape endpoint (src/scraper.py lines 523-548):
tempfile.mkdtemp and os.makedirs create the work area and its pdfs
subdirectory, crawl_to_pdfs runs (abstracted as an Except: error e is
the crawl raising an exception, ok files the pdf files found in the
output directory afterwards), then the endpoint raises 500 on a crawl
exception, raises 504 when no pdf file exists, and otherwise zips the
files and returns the archive.  No branch of the source removes the
work area, so every branch leaves both directories in place. -/
def scrape (crawl : Except (List Char) (List (List Char))) : ScrapeOutcome :=
  let dirs := ["workdir".toList, "workdir/pdfs".toList]
  match crawl with
  | .error e =>
    { result := .error (500, "Crawl failed: ".toList ++ e), dirs := dirs }
  | .ok files =>
    if files.isEmpty then
      { result := .error (504,
          ("Fetch timed out or was blocked " ++
           "before any page could be saved.").toList)
        dirs := dirs }
    else
      { result := .ok files, dirs := dirs }

end Scraper

/-- C7: the endpoint maps a fatal crawl abort to the 500 crawl-failed
error, a drained crawl with zero documents to the distinct 504
nothing-retrievable error, and any run with at least one document (even
if all are error documents) to the archive of those documents. -/
theorem scrape_outcomes (e : List Char) (files : List (List Char))
    (hne : files ≠ []) :
    (scrape (.error e)).result =
      .error (500, "Crawl failed: ".toList ++ e) ∧
    (scrape (.ok [])).result =
      .error (504,
        ("Fetch timed out or was blocked " ++
         "before any page could be saved.").toList) ∧
    (scrape (.ok files)).result = .ok files ∧
    (500 : Nat) ≠ 504 := by
  refine ⟨rfl, rfl, ?_, by omega⟩
  rw [scrape]
  rw [if_neg (by simpa using hne)]

/-- Witness for C7 with a one-document archive. -/
theorem scrape_outcomes_witness :
    (scrape (.error "boom".toList)).result =
      .error (500, "Crawl failed: ".toList ++ "boom".toList) ∧
    (scrape (.ok [])).result =
      .error (504,
        ("Fetch timed out or was blocked " ++
         "before any page could be saved.").toList) ∧
    (scrape (.ok ["a.pdf".toList])).result = .ok ["a.pdf".toList] ∧
    (500 : Nat) ≠ 504 :=
  scrape_outcomes "boom".toList ["a.pdf".toList] (by decide)

/-- C8 counterexample: after a successful run delivering the archive,
the per-run output area is still present, contrary to the claim that it
is removed once the archive has been delivered. -/
theorem scrape_leak_counterexample :
    "workdir".toList ∈ (scrape (.ok ["a.pdf".toList])).dirs := by
  decide

/-- C8 amended: the per-run output area is created fresh for each run
but never removed: on every outcome — crawl failure, zero documents, or
delivered archive — the temporary working directory and the documents
under it remain on disk after the call returns. -/
theorem scrape_workdir_persists
    (crawl : Except (List Char) (List (List Char))) :
    "workdir".toList ∈ (scrape crawl).dirs := by
  rcases crawl with e | files
  · simp [scrape]
  · by_cases h : files.isEmpty <;> simp [scrape, h]

namespace Scraper

/-- The 64 md5 round constants, floor(abs(sin(i+1)) times 2 to the 32). -/
def md5K : List Nat :=
  [3614090360, 3905402710, 606105819, 3250441966, 4118548399, 1200080426,
   2821735955, 4249261313, 1770035416, 2336552879, 4294925233, 2304563134,
   1804603682, 4254626195, 2792965006, 1236535329, 4129170786, 3225465664,
   643717713, 3921069994, 3593408605, 38016083, 3634488961, 3889429448,
   568446438, 3275163606, 4107603335, 1163531501, 2850285829, 4243563512,
   1735328473, 2368359562, 4294588738, 2272392833, 1839030562, 4259657740,
   2763975236, 1272893353, 4139469664, 3200236656, 681279174, 3936430074,
   3572445317, 76029189, 3654602809, 3873151461, 530742520, 3299628645,
   4096336452, 1126891415, 2878612391, 4237533241, 1700485571, 2399980690,
   4293915773, 2240044497, 1873313359, 4264355552, 2734768916, 1309151649,
   4149444226, 3174756917, 718787259, 3951481745]

/-- The md5 per-round left-rotation amounts. -/
def md5S : List Nat :=
  [7, 12, 17, 22, 7, 12, 17, 22, 7, 12, 17, 22, 7, 12, 17, 22,
   5, 9, 14, 20, 5, 9, 14, 20, 5, 9, 14, 20, 5, 9, 14, 20,
   4, 11, 16, 23, 4, 11, 16, 23, 4, 11, 16, 23, 4, 11, 16, 23,
   6, 10, 15, 21, 6, 10, 15, 21, 6, 10, 15, 21, 6, 10, 15, 21]

/-- Rotate a 32-bit word (a Nat below 2 to the 32) left by s bits. -/
def rotl32 (x s : Nat) : Nat :=
  ((x <<< s) % 4294967296) + (x >>> (32 - s))

/-- The md5 mixing function and message index for round i; bitwise not
of a 32-bit word w is 4294967295 - w. -/
def md5Mix (b c d i : Nat) : Nat × Nat :=
  if i < 16 then ((b &&& c) ||| ((4294967295 - b) &&& d), i)
  else if i < 32 then ((d &&& b) ||| ((4294967295 - d) &&& c), (5 * i + 1) % 16)
  else if i < 48 then (b ^^^ c ^^^ d, (3 * i + 5) % 16)
  else (c ^^^ (b ||| (4294967295 - d)), (7 * i) % 16)

/-- One md5 round on the state (a, b, c, d) with message words M. -/
def md5Round (M : List Nat) (st : Nat × Nat × Nat × Nat) (i : Nat) :
    Nat × Nat × Nat × Nat :=
  let a := st.1
  let b := st.2.1
  let c := st.2.2.1
  let d := st.2.2.2
  let fg := md5Mix b c d i
  let t := (fg.1 + a + md5K.getD i 0 + M.getD fg.2 0) % 4294967296
  (d, (b + rotl32 t (md5S.getD i 0)) % 4294967296, b, c)

/-- The sixteen little-endian 32-bit words of one 64-byte block. -/
def md5Words (block : List Nat) : List Nat :=
  (List.range 16).map (fun j =>
    block.getD (4 * j) 0 + 256 * block.getD (4 * j + 1) 0 +
    65536 * block.getD (4 * j + 2) 0 + 16777216 * block.getD (4 * j + 3) 0)

/-- Process one 64-byte block into the running md5 state. -/
def md5Block (st : Nat × Nat × Nat × Nat) (block : List Nat) :
    Nat × Nat × Nat × Nat :=
  let M := md5Words block
  let r := (List.range 64).foldl (md5Round M) st
  ((st.1 + r.1) % 4294967296,
   (st.2.1 + r.2.1) % 4294967296,
   (st.2.2.1 + r.2.2.1) % 4294967296,
   (st.2.2.2 + r.2.2.2) % 4294967296)

/-- md5 padding: append the byte 128, zeros up to 56 mod 64, then the
bit length as eight little-endian bytes. -/
def md5Pad (ms : List Nat) : List Nat :=
  let padLen := (120 - ((ms.length + 1) % 64)) % 64
  ms ++ [128] ++ List.replicate padLen 0 ++
    (List.range 8).map (fun j => ((ms.length * 8) >>> (8 * j)) % 256)

/-- Cut a padded byte list into 64-byte blocks (fuel-bounded; fuel at
least the list length always suffices since each step consumes 64). -/
def toBlocks : Nat → List Nat → List (List Nat)
  | 0, _ => []
  | _, [] => []
  | fuel + 1, bs => bs.take 64 :: toBlocks fuel (bs.drop 64)

/-- The sixteen digest bytes of the md5 of a byte list. -/
def md5Digest (ms : List Nat) : List Nat :=
  let padded := md5Pad ms
  let st := (toBlocks padded.length padded).foldl md5Block
    (1732584193, 4023233417, 2562383102, 271733878)
  ([st.1, st.2.1, st.2.2.1, st.2.2.2].map
    (fun x => [x % 256, (x >>> 8) % 256, (x >>> 16) % 256, (x >>> 24) % 256])).join

/-- Lowercase hex digit for a value below 16. -/
def hexDigitChar (n : Nat) : Char :=
  if n < 10 then Char.ofNat (48 + n) else Char.ofNat (87 + n)

/-- The 32-character lowercase hex md5 digest (hashlib hexdigest). -/
def md5HexL (ms : List Nat) : List Char :=
  ((md5Digest ms).map
    (fun b => [hexDigitChar (b / 16), hexDigitChar (b % 16)])).join

/-- urldefrag: the same URL with the fragment removed. -/
def dropFragment (u : Url) : Url := { u with fragment := [] }

/-- urlencode on parsed pairs, restricted to values that quote_plus
leaves unchanged (the alphanumeric URLs of this development). -/
def encodeQuery (q : List (List Char × List Char)) : List Char :=
  List.intercalate ['&'] (q.map (fun kv => kv.1 ++ '=' :: kv.2))

/-- Reconstruct the URL string from its components, as urlunsplit does
for an absolute http(s) URL with nonempty scheme and netloc. -/
def renderUrl (u : Url) : List Char :=
  u.scheme ++ "://".toList ++ u.netloc ++ u.path ++
  (if u.query.isEmpty then [] else '?' :: encodeQuery u.query) ++
  (if u.fragment.isEmpty then [] else '#' :: u.fragment)

/-- ASCII letters and digits, the class kept by the slug regex. -/
def isAlnumAscii (c : Char) : Bool :=
  ('a' ≤ c && c ≤ 'z') || ('A' ≤ c && c ≤ 'Z') || ('0' ≤ c && c ≤ '9')

/-- Replace every character outside the slug class by a dash. -/
def dashMap (s : List Char) : List Char :=
  s.map (fun c => if isAlnumAscii c then c else '-')

/-- Collapse adjacent dashes, so that together with dashMap each maximal
run of non-alphanumeric characters becomes one dash, as the re.sub of
src/scraper.py line 147 does. -/
def squeezeDashes : List Char → List Char
  | [] => []
  | [c] => [c]
  | c :: d :: t =>
    if c == '-' && d == '-' then squeezeDashes (d :: t)
    else c :: squeezeDashes (d :: t)

/-- Python str.strip with the dash argument. -/
def stripDashes (s : List Char) : List Char :=
  ((s.dropWhile (fun c => c == '-')).reverse.dropWhile
    (fun c => c == '-')).reverse

/-- Embedding of sanitize_filename_from_url (src/scraper.py lines
143-148): drop the fragment, hash the fragment-free URL string with md5
keeping ten hex characters, slug netloc plus path, truncate to 80 and
strip dashes, fall back to the word page for an empty slug. -/
def sanitize_filename_from_url (u : Url) : List Char :=
  let clean := dropFragment u
  let h := (md5HexL ((renderUrl clean).map Char.toNat)).take 10
  let stem := stripDashes
    ((squeezeDashes (dashMap (clean.netloc ++ clean.path))).take 80)
  (if stem = [] then "page".toList else stem) ++ '-' :: (h ++ ".pdf".toList)

/-- http URL of host e.com, path /p, one utm_a tracking parameter. -/
def urlWithUtm : Url :=
  { scheme := "http".toList, netloc := "e.com".toList, path := "/p".toList,
    query := [("utm_a".toList, "1".toList)], fragment := [] }

/-- The same URL without the tracking parameter. -/
def urlPlain : Url :=
  { scheme := "http".toList, netloc := "e.com".toList, path := "/p".toList,
    query := [], fragment := [] }

end Scraper

/-- C9 counterexample: the filename hashes the merely fragment-stripped
URL, not the canonical URL: these two URLs differ only by the tracking
parameter utm_a, canonicalize identically, and still receive different
filenames because their md5 prefixes differ. -/
theorem filename_canonical_counterexample :
    strip_tracking Scraper.urlWithUtm = strip_tracking Scraper.urlPlain ∧
    sanitize_filename_from_url Scraper.urlWithUtm ≠
      sanitize_filename_from_url Scraper.urlPlain := by
  constructor
  · decide
  · decide

/-- C9 amended: the filename is a deterministic function of the
fragment-stripped URL, a sanitized truncated slug of host plus path
suffixed with ten hex characters of the md5 of the fragment-free URL
string, so two URLs with the same fragment-stripped form, in particular
two URLs differing only by fragment, receive the same filename; URLs
differing by a tracking query parameter hash differently and can
receive different filenames. -/
theorem sanitize_filename_deterministic (u1 u2 : Url)
    (h : dropFragment u1 = dropFragment u2) :
    sanitize_filename_from_url u1 = sanitize_filename_from_url u2 := by
  simp only [sanitize_filename_from_url, h]

/-- Witness for C9 amended: two URLs differing only by fragment. -/
theorem sanitize_filename_deterministic_witness :
    sanitize_filename_from_url
      { scheme := "http".toList, netloc := "e.com".toList,
        path := "/p".toList, query := [], fragment := "frag".toList } =
    sanitize_filename_from_url Scraper.urlPlain :=
  sanitize_filename_deterministic
    { scheme := "http".toList, netloc := "e.com".toList,
      path := "/p".toList, query := [], fragment := "frag".toList }
    Scraper.urlPlain (by decide)
